import Mathlib

/-!
Shallow embedding of `src/tct/src/internal/frontier/top.rs` from the
tiered commitment tree (TCT) repository.

`Top<Item>` wraps `Option<Nested<Item>>` and dispatches every operation to
the inner `Nested` frontier tier when it is present, with an explicit
default for the empty (`None`) case.  The `Nested` engine itself is not
part of the sources under verification, so it is kept abstract here as a
record of operations (`NestedOps`), and the contracts the specification
states for it are modelled as named propositions.  `Top` and all of its
operations are translated line by line from `top.rs`.
-/

namespace Tct

/-- Digests are opaque fixed-size values with decidable equality and two
distinguished constants; we model them as natural numbers. -/
abbrev Hash := Nat

/-- The reserved digest of an empty/absent subtree (`Hash::zero()`). -/
def Hash.zero : Hash := 0

/-- The reserved digest of an empty top-level container (`Hash::one()`). -/
def Hash.one : Hash := 1

/-- The two-state node `Insert<T>` from the data model: either kept content
or a hash-only remnant. -/
inductive Insert (α : Type) where
  | keep : α → Insert α
  | hash : Hash → Insert α
deriving DecidableEq, Repr

/-- `Insert::map`, applying a function to the kept content. -/
def Insert.map (f : α → β) : Insert α → Insert β
  | .keep a => .keep (f a)
  | .hash h => .hash h

/-- The digest of an `Insert` node: the stored digest if hash-only, else
the digest of the kept content (`GetHash for Insert<T>`). -/
def Insert.digest (hashOf : α → Hash) : Insert α → Hash
  | .keep a => hashOf a
  | .hash h => h

/-- Modelled from the spec: the capability interface of the missing
`frontier::tier::Nested<Item>` engine (spec 4.3), which is declared in
`frontier/tier.rs` and not among the sources.  `N` is the nested frontier
type, `C` its completed counterpart, `W` the witness result (authentication
path paired with the leaf value).  Each operation is exactly one of the
capabilities `Top` delegates to: `is_full`, `new`, `insert_owned`, `hash`,
`cached_hash`, `finalize_owned`, `position`, `witness`, `forget`, `update`,
plus the hash of a completed tier.  `insertOwned` returns `none` where the
Rust `insert_owned` returns the `Err` case, and `update` returns the new
state next to the caller-visible result (`none` when the focus is not
live, in which case the Rust value is unchanged). -/
structure NestedOps (Item N C W : Type 0) : Type 1 where
  isFull : N → Bool
  new : Item → N
  insertOwned : N → Item → Option N
  hash : N → Hash
  cachedHash : N → Option Hash
  finalizeOwned : N → Insert C
  completeHash : C → Hash
  position : N → Option Nat
  witness : N → Nat → Option W
  forget : N → Nat → Bool × N
  update : {R : Type} → N → (Item → Item × R) → Option (N × R)
  focusLive : N → Bool

/-- `complete::Top`, the completed counterpart of a top-level tier,
wrapping a completed nested tier. -/
structure CompleteTop (C : Type) where
  inner : C
deriving DecidableEq, Repr

/-- The frontier of the top level of some part of the commitment tree:
`Top<Item> { inner: Option<Nested<Item>> }`. -/
structure Top (N : Type) where
  inner : Option N
deriving DecidableEq, Repr

/-- `Top::new()`: a new top-level frontier tier (the default, `None`). -/
def Top.new : Top N := ⟨none⟩

/-- `Top::insert`: insert an item into this frontier tier.  If the tier is
full, return the input item without inserting it.  The `panic!` branch of
the source (insert into a non-full inner frontier failing) is modelled as
the `none` result. -/
def Top.insert (ops : NestedOps Item N C W) (t : Top N) (x : Item) :
    Option (Except Item Unit × Top N) :=
  match t.inner with
  | some inner =>
    if ops.isFull inner then
      some (Except.error x, ⟨some inner⟩)
    else
      match ops.insertOwned inner x with
      | some inner' => some (Except.ok (), ⟨some inner'⟩)
      | none => none
  | none => some (Except.ok (), ⟨some (ops.new x)⟩)

/-- `Top::update`: update the currently focused item, returning the result
of the function, or `none` if the tier is empty or the focus is not live. -/
def Top.update (ops : NestedOps Item N C W) (t : Top N)
    (f : Item → Item × R) : Option R × Top N :=
  match t.inner with
  | some inner =>
    match ops.update inner f with
    | some (inner', r) => (some r, ⟨some inner'⟩)
    | none => (none, ⟨some inner⟩)
  | none => (none, t)

/-- `Top::finalize`: finalize the top tier into either a summary root hash
or a complete tier.  The hash of an empty top-level tier is `one`. -/
def Top.finalize (ops : NestedOps Item N C W) (t : Top N) :
    Insert (CompleteTop C) :=
  match t.inner with
  | some inner => (ops.finalizeOwned inner).map (fun c => ⟨c⟩)
  | none => .hash Hash.one

/-- `Top::is_full`: whether this top-level tier is full. -/
def Top.is_full (ops : NestedOps Item N C W) (t : Top N) : Bool :=
  match t.inner with
  | some inner => ops.isFull inner
  | none => false

/-- `Top::is_empty`: whether this top-level tier is empty. -/
def Top.is_empty (t : Top N) : Bool :=
  t.inner.isNone

/-- `GetPosition for Top`: the position of the next insertion, `some 0` on
the empty tier. -/
def Top.position (ops : NestedOps Item N C W) (t : Top N) : Option Nat :=
  match t.inner with
  | some frontier => ops.position frontier
  | none => some 0

/-- `GetHash for Top`: the root hash, `zero` on the empty tier. -/
def Top.hash (ops : NestedOps Item N C W) (t : Top N) : Hash :=
  match t.inner with
  | some inner => ops.hash inner
  | none => Hash.zero

/-- `GetHash::cached_hash for Top`. -/
def Top.cached_hash (ops : NestedOps Item N C W) (t : Top N) : Option Hash :=
  match t.inner with
  | some inner => ops.cachedHash inner
  | none => some Hash.zero

/-- `Witness for Top`: the authentication path for a position, `none` on
the empty tier. -/
def Top.witness (ops : NestedOps Item N C W) (t : Top N) (index : Nat) :
    Option W :=
  match t.inner with
  | some inner => ops.witness inner index
  | none => none

/-- `Forget for Top`: forget a position, returning whether anything was
forgotten (`false` on the empty tier). -/
def Top.forget (ops : NestedOps Item N C W) (t : Top N) (index : Nat) :
    Bool × Top N :=
  match t.inner with
  | some inner =>
    let r := ops.forget inner index
    (r.1, ⟨some r.2⟩)
  | none => (false, t)

/-- Modelled from the spec: for the missing `Nested` engine, "not full" is
itself defined as "top-level recursive insert there would succeed"
(spec 4.2), so `insert_owned` on a non-full nested frontier succeeds. -/
def InsertNotFullSucceeds (ops : NestedOps Item N C W) : Prop :=
  ∀ n x, ops.isFull n = false → (ops.insertOwned n x).isSome

/-- Modelled from the spec: for the missing `Nested` engine, finalizing
never changes the root hash (spec 8), so the digest of `finalize_owned`
equals the frontier hash computed immediately before. -/
def FinalizePreservesHash (ops : NestedOps Item N C W) : Prop :=
  ∀ n, (ops.finalizeOwned n).digest ops.completeHash = ops.hash n

/-- Modelled from the spec: for the missing `Nested` engine, `forget(p)`
never changes `hash()` of any tier (spec 8). -/
def ForgetPreservesHash (ops : NestedOps Item N C W) : Prop :=
  ∀ n p, ops.hash (ops.forget n p).2 = ops.hash n

/-- Modelled from the spec: for the missing `Nested` engine, after
`forget(p)` the witness for `p` returns absence (spec 8). -/
def ForgetKillsOwnWitness (ops : NestedOps Item N C W) : Prop :=
  ∀ n p, ops.witness (ops.forget n p).2 p = none

/-- Modelled from the spec: for the missing `Nested` engine, after
`forget(p)` the witness for any other position `q` is unaffected
(spec 8). -/
def ForgetPreservesOtherWitness (ops : NestedOps Item N C W) : Prop :=
  ∀ n p q, q ≠ p → ops.witness (ops.forget n p).2 q = ops.witness n q

/-- Modelled from the spec: for the missing `Nested` engine, `update`
returns a result only when the focus has live content all the way to the
target (spec 4.2). -/
def UpdateNeedsLiveFocus (ops : NestedOps Item N C W) : Prop :=
  ∀ {R : Type} (n : N) (f : Item → Item × R),
    (ops.update n f).isSome → ops.focusLive n = true

/-- Modelled from the spec: for the missing `Nested` engine, the value
returned by a successful `update` is the result of applying `f` to the
focus item (spec 4.2). -/
def UpdateReturnsResultOfF (ops : NestedOps Item N C W) : Prop :=
  ∀ {R : Type} (n : N) (f : Item → Item × R) (p : N × R),
    ops.update n f = some p → ∃ i, p.2 = (f i).2

/-!
A concrete instantiation of the missing `Nested` engine, used to evaluate
the theorems on explicit inputs.  It is a single arity-4 leaf tier holding
natural-number items: digests of the leaves in insertion order next to
their (possibly forgotten) contents.
-/

/-- A concrete nested frontier: the digests of the inserted leaves paired
with their contents, `none` marking a forgotten leaf. -/
abbrev CN := List Hash × List (Option Nat)

/-- The leaf digest of the concrete model (injective, avoiding the
reserved constants). -/
def hashLeaf (v : Nat) : Hash := v + 2

/-- The root digest of the concrete model: a fold over the leaf digests
only, so it is independent of which contents are forgotten. -/
def cnHash (n : CN) : Hash := n.1.foldl (fun a h => a * 31 + h + 2) 1

/-- A concrete `NestedOps` instance: an arity-4 single tier over `Nat`
items, with the focus the most recently inserted leaf. -/
def cOps : NestedOps Nat CN CN (List Hash × Nat) where
  isFull n := 4 ≤ n.2.length
  new x := ([hashLeaf x], [some x])
  insertOwned n x :=
    if 4 ≤ n.2.length then none
    else some (n.1 ++ [hashLeaf x], n.2 ++ [some x])
  hash := cnHash
  cachedHash n := some (cnHash n)
  finalizeOwned n := .keep n
  completeHash := cnHash
  position n := some n.2.length
  witness n p := (n.2.getD p none).map (fun v => (n.1, v))
  forget n p :=
    match n.2.getD p none with
    | some _ => (true, (n.1, n.2.set p none))
    | none => (false, n)
  update n f :=
    match n.2.getLast? with
    | some (some v) =>
      let r := f v
      some ((n.1.dropLast ++ [hashLeaf r.1], n.2.dropLast ++ [some r.1]), r.2)
    | _ => none
  focusLive n :=
    match n.2.getLast? with
    | some (some _) => true
    | _ => false

theorem cOps_insert_not_full : InsertNotFullSucceeds cOps := by
  intro n x h
  simp only [cOps, InsertNotFullSucceeds] at *
  simp only [decide_eq_false_iff_not] at h
  simp [h]

theorem cOps_finalize_hash : FinalizePreservesHash cOps := by
  intro n
  rfl

theorem cOps_forget_hash : ForgetPreservesHash cOps := by
  intro n p
  simp only [cOps, cnHash]
  cases h : n.2.getD p none <;> simp

theorem cOps_forget_self : ForgetKillsOwnWitness cOps := by
  intro n p
  simp only [cOps]
  cases h : n.2.getD p none with
  | none => simpa using h
  | some v =>
    have hlt : p < n.2.length := by
      by_contra hge
      rw [List.getD_eq_default _ _ (Nat.le_of_not_lt hge)] at h
      exact Option.noConfusion h
    simp [List.getD_eq_getElem?_getD, List.getElem?_set_self, hlt]

theorem cOps_forget_other : ForgetPreservesOtherWitness cOps := by
  intro n p q hqp
  simp only [cOps]
  cases h : n.2.getD p none with
  | none => simp
  | some v =>
    simp [List.getD_eq_getElem?_getD, List.getElem?_set_ne (fun e => hqp e.symm)]

theorem cOps_update_live : UpdateNeedsLiveFocus cOps := by
  intro R n f h
  simp only [cOps] at *
  cases hl : n.2.getLast? with
  | none => rw [hl] at h; simp at h
  | some o =>
    cases o with
    | none => rw [hl] at h; simp at h
    | some v => simp [hl]

theorem cOps_update_result : UpdateReturnsResultOfF cOps := by
  intro R n f p h
  simp only [cOps] at h
  cases hl : n.2.getLast? with
  | none => rw [hl] at h; exact Option.noConfusion h
  | some o =>
    cases o with
    | none => rw [hl] at h; exact Option.noConfusion h
    | some v =>
      rw [hl] at h
      refine ⟨v, ?_⟩
      cases h
      rfl

/-- The hash of a completed top-level tier (`GetHash for complete::Top`),
delegating to the completed nested tier. -/
def CompleteTop.hash (ops : NestedOps Item N C W) (ct : CompleteTop C) : Hash :=
  ops.completeHash ct.inner

/-- A concrete full top-level tier: four leaves 1, 2, 3, 4 with their
digests, at arity 4. -/
def tFull : Top CN := ⟨some ([3, 4, 5, 6], [some 1, some 2, some 3, some 4])⟩

/-- A concrete partially filled top-level tier: two leaves 1, 2 with their
digests, at arity 4. -/
def tPart : Top CN := ⟨some ([3, 4], [some 1, some 2])⟩

/-- Claim C1: for every full Top frontier tier `t` and every item `x`,
`insert x` returns `Err x` with the rejected item unchanged and `t`
unchanged: no implicit finalization occurs, and the hash before and after
the rejected insert are equal. -/
theorem claim_C1_full_insert_rejects (ops : NestedOps Item N C W)
    (t : Top N) (x : Item) (h : Top.is_full ops t = true) :
    ∃ t', Top.insert ops t x = some (Except.error x, t') ∧ t' = t ∧
      Top.hash ops t' = Top.hash ops t := by
  obtain ⟨inner⟩ := t
  cases inner with
  | none => simp [Top.is_full] at h
  | some n =>
    simp only [Top.is_full] at h
    exact ⟨⟨some n⟩, by simp [Top.insert, h], rfl, rfl⟩

/-- Witness for C1: inserting 9 into the concrete full tier is rejected
with the tier unchanged. -/
theorem claim_C1_witness :
    Top.is_full cOps tFull = true ∧
    ∃ t', Top.insert cOps tFull 9 = some (Except.error 9, t') ∧ t' = tFull ∧
      Top.hash cOps t' = Top.hash cOps tFull :=
  ⟨by decide, claim_C1_full_insert_rejects cOps tFull 9 (by decide)⟩

/-- Counterexample to C2 as stated: the hash of a freshly created `Top` is
the `zero` constant, not the `one`-class empty-container constant (`one`
is produced only by `finalize` on the empty tier). -/
theorem claim_C2_counterexample :
    ¬ Top.hash cOps (Top.new : Top CN) = Hash.one := by
  decide

/-- Claim C2 (amended): a freshly created `Top` satisfies `hash = zero`,
`position = some 0`, `is_empty = true`, and `finalize` on it yields the
designated empty-container hash `one`. -/
theorem claim_C2_fresh_top (ops : NestedOps Item N C W) :
    Top.hash ops (Top.new : Top N) = Hash.zero ∧
    Top.position ops (Top.new : Top N) = some 0 ∧
    Top.is_empty (Top.new : Top N) = true ∧
    Top.finalize ops (Top.new : Top N) = Insert.hash Hash.one :=
  ⟨rfl, rfl, rfl, rfl⟩

/-- Counterexample to C3 as stated: on the empty tier, the digest of the
finalized node is `one` while `hash()` before finalizing is `zero`, so
finalization does change the root hash of the empty tier. -/
theorem claim_C3_counterexample :
    (Top.finalize cOps (Top.new : Top CN)).digest (CompleteTop.hash cOps) ≠
      Top.hash cOps (Top.new : Top CN) := by
  decide

/-- Claim C3 (amended): for every non-empty Top frontier tier, the digest
of the finalized node equals the hash computed immediately before
finalizing; on the empty tier, finalization yields digest `one` while the
prior hash is `zero`. -/
theorem claim_C3_finalize_preserves_hash (ops : NestedOps Item N C W)
    (hl : FinalizePreservesHash ops) (t : Top N) :
    (t.inner ≠ none →
      (Top.finalize ops t).digest (CompleteTop.hash ops) = Top.hash ops t) ∧
    (t.inner = none →
      (Top.finalize ops t).digest (CompleteTop.hash ops) = Hash.one ∧
      Top.hash ops t = Hash.zero) := by
  obtain ⟨inner⟩ := t
  cases inner with
  | none => exact ⟨fun h => absurd rfl h, fun _ => ⟨rfl, rfl⟩⟩
  | some n =>
    refine ⟨fun _ => ?_, fun h => Option.noConfusion h⟩
    have := hl n
    simp only [Top.finalize, Top.hash, Insert.map]
    cases hf : ops.finalizeOwned n with
    | keep c =>
      rw [hf] at this
      simpa [Insert.digest, CompleteTop.hash] using this
    | hash d =>
      rw [hf] at this
      simpa [Insert.digest] using this

/-- Witness for C3: finalizing the concrete partially filled tier yields a
node whose digest equals the frontier hash before finalizing. -/
theorem claim_C3_witness :
    (Top.finalize cOps tPart).digest (CompleteTop.hash cOps) =
      Top.hash cOps tPart :=
  (claim_C3_finalize_preserves_hash cOps cOps_finalize_hash tPart).1 (by decide)

/-- Claim C4: for every Top frontier tier that is not full (including the
empty tier) and every item, `insert` returns `Ok ()`, and the internal
panic branch guarding the inner insert is unreachable (the result is never
the modelled panic value `none`). -/
theorem claim_C4_not_full_insert_succeeds (ops : NestedOps Item N C W)
    (hlaw : InsertNotFullSucceeds ops) (t : Top N) (x : Item)
    (h : Top.is_full ops t = false) :
    ∃ t', Top.insert ops t x = some (Except.ok (), t') := by
  obtain ⟨inner⟩ := t
  cases inner with
  | none => exact ⟨⟨some (ops.new x)⟩, rfl⟩
  | some n =>
    simp only [Top.is_full] at h
    have hins := hlaw n x h
    cases hio : ops.insertOwned n x with
    | none => rw [hio] at hins; exact absurd hins (by simp)
    | some n' => exact ⟨⟨some n'⟩, by simp [Top.insert, h, hio]⟩

/-- Witness for C4: inserting 7 into the concrete partially filled (hence
non-full) tier succeeds. -/
theorem claim_C4_witness :
    Top.is_full cOps tPart = false ∧
    ∃ t', Top.insert cOps tPart 7 = some (Except.ok (), t') :=
  ⟨by decide,
    claim_C4_not_full_insert_succeeds cOps cOps_insert_not_full tPart 7
      (by decide)⟩

/-- Claim C5: on the empty Top frontier tier, for every position,
`witness` returns `none`, `forget` returns `false` leaving the tier
unchanged, and `hash` returns the `zero` constant: the empty/absent
defaults make the recursion total. -/
theorem claim_C5_empty_defaults (ops : NestedOps Item N C W) (t : Top N)
    (p : Nat) (h : Top.is_empty t = true) :
    Top.witness ops t p = none ∧ Top.forget ops t p = (false, t) ∧
    Top.hash ops t = Hash.zero := by
  obtain ⟨inner⟩ := t
  have hn : inner = none := by simpa [Top.is_empty] using h
  subst hn
  exact ⟨rfl, rfl, rfl⟩

/-- Witness for C5: the empty defaults at position 3 on a fresh tier. -/
theorem claim_C5_witness :
    Top.witness cOps (Top.new : Top CN) 3 = none ∧
    Top.forget cOps (Top.new : Top CN) 3 = (false, Top.new) ∧
    Top.hash cOps (Top.new : Top CN) = Hash.zero :=
  claim_C5_empty_defaults cOps Top.new 3 (by decide)

/-- Claim C6: `forget p` never changes the hash of a Top frontier tier;
after `forget p`, `witness p` returns `none`, while `witness q` for every
other position `q` returns the same result as before the forget. -/
theorem claim_C6_forget_frame (ops : NestedOps Item N C W) (t : Top N)
    (p q : Nat) (h1 : ForgetPreservesHash ops)
    (h2 : ForgetKillsOwnWitness ops) (h3 : ForgetPreservesOtherWitness ops)
    (hq : q ≠ p) :
    Top.hash ops (Top.forget ops t p).2 = Top.hash ops t ∧
    Top.witness ops (Top.forget ops t p).2 p = none ∧
    Top.witness ops (Top.forget ops t p).2 q = Top.witness ops t q := by
  obtain ⟨inner⟩ := t
  cases inner with
  | none => exact ⟨rfl, rfl, rfl⟩
  | some n =>
    simp only [Top.forget, Top.hash, Top.witness]
    exact ⟨h1 n p, h2 n p, h3 n p q hq⟩

/-- Witness for C6: forgetting position 2 of the concrete full tier keeps
the hash, kills the witness for 2, and leaves the witness for 1 intact. -/
theorem claim_C6_witness :
    Top.hash cOps (Top.forget cOps tFull 2).2 = Top.hash cOps tFull ∧
    Top.witness cOps (Top.forget cOps tFull 2).2 2 = none ∧
    Top.witness cOps (Top.forget cOps tFull 2).2 1 = Top.witness cOps tFull 1 :=
  claim_C6_forget_frame cOps tFull 2 1 cOps_forget_hash cOps_forget_self
    cOps_forget_other (by decide)

/-- Claim C7: on the empty Top frontier tier, `update` returns `none` for
every function `f`, without applying `f` (the result does not depend on
`f`) and without changing the tier; `update` returns `some` of `f`'s
result only when the tier is non-empty and the focus is live. -/
theorem claim_C7_update (ops : NestedOps Item N C W)
    (hlive : UpdateNeedsLiveFocus ops) (hres : UpdateReturnsResultOfF ops)
    (t : Top N) (f : Item → Item × R) :
    (Top.is_empty t = true → Top.update ops t f = (none, t)) ∧
    (∀ r t', Top.update ops t f = (some r, t') →
      Top.is_empty t = false ∧
      (∃ n, t.inner = some n ∧ ops.focusLive n = true) ∧
      ∃ i, r = (f i).2) := by
  obtain ⟨inner⟩ := t
  cases inner with
  | none =>
    refine ⟨fun _ => rfl, fun r t' hup => ?_⟩
    simp [Top.update] at hup
  | some n =>
    refine ⟨fun he => by simp [Top.is_empty] at he, fun r t' hup => ?_⟩
    simp only [Top.update] at hup
    cases hu : ops.update n f with
    | none => rw [hu] at hup; simp at hup
    | some pr =>
      rw [hu] at hup
      refine ⟨rfl, ⟨n, rfl, hlive n f (by rw [hu]; rfl)⟩, ?_⟩
      obtain ⟨i, hi⟩ := hres n f pr hu
      obtain ⟨h1, -⟩ := Prod.mk.injEq .. ▸ hup
      cases hup
      exact ⟨i, by simpa using hi⟩

/-- Witness for C7: updating the fresh empty tier returns `none` and
leaves it unchanged. -/
theorem claim_C7_witness :
    Top.update cOps (Top.new : Top CN) (fun v : Nat => (v + 1, v * 2)) =
      (none, Top.new) :=
  (claim_C7_update cOps cOps_update_live cOps_update_result Top.new
    (fun v : Nat => (v + 1, v * 2))).1 (by decide)

/-- Claim C8: every operation on Top is deterministic: equal tier states
and equal arguments produce equal results and equal final states. -/
theorem claim_C8_deterministic (ops : NestedOps Item N C W) (t₁ t₂ : Top N)
    (x : Item) (p : Nat) (f : Item → Item × R) (h : t₁ = t₂) :
    Top.insert ops t₁ x = Top.insert ops t₂ x ∧
    Top.update ops t₁ f = Top.update ops t₂ f ∧
    Top.finalize ops t₁ = Top.finalize ops t₂ ∧
    Top.witness ops t₁ p = Top.witness ops t₂ p ∧
    Top.forget ops t₁ p = Top.forget ops t₂ p ∧
    Top.hash ops t₁ = Top.hash ops t₂ ∧
    Top.position ops t₁ = Top.position ops t₂ := by
  subst h
  exact ⟨rfl, rfl, rfl, rfl, rfl, rfl, rfl⟩

/-- Witness for C8: determinism at the concrete partially filled tier. -/
theorem claim_C8_witness :
    Top.insert cOps tPart 7 = Top.insert cOps tPart 7 ∧
    Top.update cOps tPart (fun v : Nat => (v, v)) =
      Top.update cOps tPart (fun v : Nat => (v, v)) ∧
    Top.finalize cOps tPart = Top.finalize cOps tPart ∧
    Top.witness cOps tPart 2 = Top.witness cOps tPart 2 ∧
    Top.forget cOps tPart 2 = Top.forget cOps tPart 2 ∧
    Top.hash cOps tPart = Top.hash cOps tPart ∧
    Top.position cOps tPart = Top.position cOps tPart :=
  claim_C8_deterministic cOps tPart tPart 7 2 (fun v : Nat => (v, v)) rfl

/-- Claim C9: after `insert` returns (whether `Ok` or `Err`), the tier is
not empty: insert always leaves the inner frontier present. -/
theorem claim_C9_insert_nonempty (ops : NestedOps Item N C W) (t : Top N)
    (x : Item) (r : Except Item Unit) (t' : Top N)
    (h : Top.insert ops t x = some (r, t')) :
    Top.is_empty t' = false := by
  obtain ⟨inner⟩ := t
  cases inner with
  | none =>
    simp only [Top.insert] at h
    cases h
    rfl
  | some n =>
    simp only [Top.insert] at h
    by_cases hf : ops.isFull n
    · rw [if_pos hf] at h
      cases h
      rfl
    · rw [if_neg hf] at h
      cases hio : ops.insertOwned n x with
      | none => rw [hio] at h; exact Option.noConfusion h
      | some n' =>
        rw [hio] at h
        cases h
        rfl

/-- Witness for C9: inserting 5 into a fresh tier leaves it non-empty. -/
theorem claim_C9_witness :
    Top.is_empty (⟨some ([7], [some 5])⟩ : Top CN) = false :=
  claim_C9_insert_nonempty cOps Top.new 5 (Except.ok ())
    ⟨some ([7], [some 5])⟩ rfl

/-- Claim C10: an empty top-level tier is never reported full. -/
theorem claim_C10_empty_not_full (ops : NestedOps Item N C W) (t : Top N)
    (h : Top.is_empty t = true) : Top.is_full ops t = false := by
  obtain ⟨inner⟩ := t
  have hn : inner = none := by simpa [Top.is_empty] using h
  subst hn
  rfl

/-- Witness for C10: the fresh empty tier is not full. -/
theorem claim_C10_witness : Top.is_full cOps (Top.new : Top CN) = false :=
  claim_C10_empty_not_full cOps Top.new (by decide)

end Tct
